import Mathlib

/-!
# get_events: decoding `CommitmentStored` logs

A shallow embedding of `src/main.go`.  The program fetches the logs of one contract and,
for every log whose first topic is the Keccak-256 hash of the `CommitmentStored` signature,
unpacks the data payload into an event struct, reads the indexed `CommitmentIndex` from
`Topics[1]` and prints the record.

The loop of `main` (lines 66-115) is embedded as `processLog` (one iteration) and
`mainLoop` (the `for ... range logs`).  What `main` takes from outside the file is made
explicit:

* the logs returned by `client.FilterLogs` are the argument `logs`;
* `contractABI.UnpackIntoInterface(&event, "CommitmentStored", vLog.Data)` depends on the
  ABI fetched at run time and on the go-ethereum decoder, so the loop takes it as the
  argument `unpack`; a concrete decoder for the event is given as `UnpackIntoInterface`;
* the go-ethereum helpers the loop calls on values (`crypto.Keccak256Hash`,
  `common.Hash.Hex`, `common.HexToHash`) are embedded as executable definitions.

Go types: `byte` is `Fin 256`, `[]byte` and `string` are lists of bytes, `[32]byte` and
`[20]byte` are lists with a length proof, `uint64` is a natural number below `2 ^ 64`
produced with an explicit `% 2 ^ 64`, `*big.Int` is `Option Int` (`none` is the nil pointer).
-/

namespace GetEvents

/-! ## Bytes, hashes, addresses -/

/-- Go `byte`. -/
abbrev Byte := Fin 256

/-- Go `string`: a sequence of bytes. -/
abbrev GoString := List Byte

/-- The bytes of a string literal, `[]byte("...")`: its UTF-8 encoding. -/
def utf8 (s : String) : List Byte :=
  s.toList.flatMap fun c => (String.utf8EncodeChar c).map fun b => b.val

/-- The type `common.Hash`, `[HashLength]byte` with `HashLength = 32`. -/
structure Hash where
  bytes : List Byte
  size : bytes.length = 32
deriving DecidableEq

/-- The type `common.Address`, `[AddressLength]byte` with `AddressLength = 20`. -/
structure Address where
  bytes : List Byte
  size : bytes.length = 20
deriving DecidableEq

/-- The copy done by `common.Hash.SetBytes` and `common.Address.SetBytes` into an array of
`n` bytes: when `b` is longer than `n` it is cropped from the left, and it is written
right-aligned, the bytes before it staying zero. -/
def setBytes (n : Nat) (b : List Byte) : List Byte :=
  List.replicate (n - (b.drop (b.length - n)).length) 0 ++ b.drop (b.length - n)

/-- The function `common.BytesToHash`. -/
def BytesToHash (b : List Byte) : Hash :=
  ⟨setBytes 32 b, by simp only [setBytes, List.length_append, List.length_replicate,
    List.length_drop]; omega⟩

/-- The function `common.BytesToAddress`. -/
def BytesToAddress (b : List Byte) : Address :=
  ⟨setBytes 20 b, by simp only [setBytes, List.length_append, List.length_replicate,
    List.length_drop]; omega⟩

/-! ## Hex text of a hash: `Hash.Hex` and `HexToHash` -/

/-- The table `hextable = "0123456789abcdef"` of `encoding/hex`, as a function of the
nibble: the ASCII code of the digit. -/
def hexDigit (n : Nat) : Byte :=
  if n < 10 then Fin.ofNat (48 + n) else Fin.ofNat (97 + (n - 10))

/-- The function `hex.EncodeToString`: two digits per byte, `hextable[v>>4]` then
`hextable[v&0x0f]`. -/
def hexEncode : List Byte → GoString
  | [] => []
  | v :: rest => hexDigit (v.val / 16) :: hexDigit (v.val % 16) :: hexEncode rest

/-- The function `hexutil.Encode`: `0x` followed by the hex digits. -/
def hexutilEncode (b : List Byte) : GoString :=
  48 :: 120 :: hexEncode b

/-- The method `common.Hash.Hex`. -/
def Hash.Hex (h : Hash) : GoString :=
  hexutilEncode h.bytes

/-- The table `reverseHexTable` of `encoding/hex`: the value of a hex digit
(`0`-`9`, `a`-`f`, `A`-`F`), and `none` where the table holds `0xff`. -/
def fromHexChar (c : Byte) : Option Nat :=
  if 48 ≤ c.val ∧ c.val ≤ 57 then some (c.val - 48)
  else if 97 ≤ c.val ∧ c.val ≤ 102 then some (c.val - 97 + 10)
  else if 65 ≤ c.val ∧ c.val ≤ 70 then some (c.val - 65 + 10)
  else none

/-- The function `common.Hex2Bytes`: `hex.DecodeString` with its error dropped, which
leaves the bytes decoded before the first invalid digit (or before a trailing single
digit). -/
def Hex2Bytes : GoString → List Byte
  | p :: q :: rest =>
    match fromHexChar p, fromHexChar q with
    | some a, some b => Fin.ofNat (a * 16 + b) :: Hex2Bytes rest
    | _, _ => []
  | _ => []

/-- The function `has0xPrefix` of `common`: the text starts with `0x` or `0X`. -/
def has0xPrefix : GoString → Bool
  | c0 :: c1 :: _ => c0 == 48 && (c1 == 120 || c1 == 88)
  | _ => false

/-- The function `common.FromHex`: drop a `0x`, pad an odd number of digits with a
leading `0`, decode. -/
def FromHex (s : GoString) : List Byte :=
  let s1 := if has0xPrefix s then s.drop 2 else s
  let s2 := if s1.length % 2 = 1 then 48 :: s1 else s1
  Hex2Bytes s2

/-- The function `common.HexToHash`. -/
def HexToHash (s : GoString) : Hash :=
  BytesToHash (FromHex s)

/-! ## Keccak-256 (`crypto.Keccak256Hash`) -/

/-- Rotation of a 64-bit lane to the left. -/
def rotl64 (x n : Nat) : Nat :=
  ((x <<< n) ||| (x >>> (64 - n))) % 2 ^ 64

/-- One step of the 8-bit linear feedback shift register that generates the round
constants (feedback polynomial `x^8 + x^6 + x^5 + x^4 + 1`). -/
def lfsrStep (r : Nat) : Nat :=
  if r &&& 0x80 ≠ 0 then ((r <<< 1) ^^^ 0x71) % 256 else (r <<< 1) % 256

/-- The bit `rc(t)` of the round-constant generator: the low bit of the register, started
at 1, after `t` steps. -/
def rcBit (t : Nat) : Nat :=
  (lfsrStep^[t] 1) % 2

/-- The round constant of round `i`: bit `2 ^ j - 1` is `rc(j + 7 * i)`, for `j` from 0
to 6. -/
def roundConstant (i : Nat) : Nat :=
  ((List.range 7).map fun j => rcBit (7 * i + j) <<< (2 ^ j - 1)).sum

/-- The 24 round constants of Keccak-f[1600]. -/
def roundConstants : List Nat :=
  (List.range 24).map roundConstant

/-- The walk over the lanes that assigns the rotation offsets: it starts at `(1, 0)` and
steps from `(x, y)` to `(y, 2 * x + 3 * y)`. -/
def rhoWalk : Nat → Nat × Nat
  | 0 => (1, 0)
  | t + 1 => ((rhoWalk t).2, (2 * (rhoWalk t).1 + 3 * (rhoWalk t).2) % 5)

/-- The rotation offset of the lane at `(x, y)`: `(t + 1) * (t + 2) / 2` modulo 64 for the
lane the walk reaches after `t` steps, and 0 for the lane `(0, 0)`, which it never
reaches. -/
def rotationOffset (x y : Nat) : Nat :=
  ((List.range 24).filterMap fun t =>
    if rhoWalk t = (x, y) then some ((t + 1) * (t + 2) / 2 % 64) else none).headD 0

/-- The lane at `(x mod 5, y mod 5)` of a state of 25 lanes. -/
def lane (a : List Nat) (x y : Nat) : Nat :=
  a.getD (x % 5 + 5 * (y % 5)) 0

/-- The step theta: every lane is xored with the parities of two neighbouring columns. -/
def theta (a : List Nat) : List Nat :=
  let c := (List.range 5).map fun x =>
    lane a x 0 ^^^ lane a x 1 ^^^ lane a x 2 ^^^ lane a x 3 ^^^ lane a x 4
  let d := (List.range 5).map fun x =>
    c.getD ((x + 4) % 5) 0 ^^^ rotl64 (c.getD ((x + 1) % 5) 0) 1
  (List.range 25).map fun i => a.getD i 0 ^^^ d.getD (i % 5) 0

/-- The steps rho and pi: the lane at `(x, y)` is rotated by its offset and moved to
`(y, 2 * x + 3 * y)`; the lane that lands at `(X, Y)` comes from `x = X + 3 * Y`, `y = X`. -/
def rhoPi (a : List Nat) : List Nat :=
  (List.range 25).map fun i =>
    let x := (i % 5 + 3 * (i / 5)) % 5
    let y := i % 5
    rotl64 (lane a x y) (rotationOffset x y)

/-- The step chi: `a[x] ^= ~a[x+1] & a[x+2]` along every row. -/
def chi (b : List Nat) : List Nat :=
  (List.range 25).map fun i =>
    lane b (i % 5) (i / 5) ^^^
      ((lane b (i % 5 + 1) (i / 5) ^^^ (2 ^ 64 - 1)) &&& lane b (i % 5 + 2) (i / 5))

/-- The step iota: the round constant is xored into lane `(0, 0)`. -/
def iota (rc : Nat) : List Nat → List Nat
  | [] => []
  | a0 :: rest => (a0 ^^^ rc) :: rest

/-- One round of the permutation. -/
def keccakRound (a : List Nat) (rc : Nat) : List Nat :=
  iota rc (chi (rhoPi (theta a)))

/-- The permutation Keccak-f[1600]: 24 rounds. -/
def keccakF1600 (a : List Nat) : List Nat :=
  roundConstants.foldl keccakRound a

/-- A lane read from up to 8 bytes, little-endian. -/
def loadLane : List Byte → Nat
  | [] => 0
  | b :: bs => b.val + 256 * loadLane bs

/-- The low `n` bytes of a lane, little-endian. -/
def storeLane : Nat → Nat → List Byte
  | 0, _ => []
  | n + 1, v => Fin.ofNat v :: storeLane n (v / 256)

/-- The first `k` chunks of `n` bytes. -/
def chunks (n : Nat) : Nat → List Byte → List (List Byte)
  | 0, _ => []
  | k + 1, bs => bs.take n :: chunks n k (bs.drop n)

/-- The rate of Keccak-256 in bytes: `(1600 - 2 * 256) / 8`. -/
def rate : Nat := 136

/-- A block of `rate` bytes xored into the first 17 lanes of the state. -/
def xorIn (a : List Nat) (block : List Byte) : List Nat :=
  (List.range 25).map fun i => a.getD i 0 ^^^ (((chunks 8 17 block).map loadLane).getD i 0)

/-- The padding of the last, incomplete block: the domain byte `0x01` of legacy Keccak,
zeros up to the rate, and `0x80` xored into the last byte. -/
def pad (tail : List Byte) : List Byte :=
  let padded := tail ++ (1 : Byte) :: List.replicate (rate - 1 - tail.length) (0 : Byte)
  padded.take (rate - 1) ++ [(Fin.ofNat ((padded.getD (rate - 1) 0).val ^^^ 0x80) : Byte)]

/-- The sponge absorbing the message block by block; `fuel` bounds the number of blocks. -/
def absorb : Nat → List Nat → List Byte → List Nat
  | 0, a, _ => a
  | fuel + 1, a, bs =>
    if bs.length < rate then keccakF1600 (xorIn a (pad bs))
    else absorb fuel (keccakF1600 (xorIn a (bs.take rate))) (bs.drop rate)

/-- The 32 bytes of the Keccak-256 digest: the first four lanes of the final state. -/
def keccak256 (bs : List Byte) : List Byte :=
  ((absorb (bs.length / rate + 1) (List.replicate 25 0) bs).take 4).flatMap (storeLane 8)

/-- The function `crypto.Keccak256Hash`. -/
def Keccak256Hash (data : List Byte) : Hash :=
  BytesToHash (keccak256 data)

/-! ## Logs and the event struct -/

/-- The fields of `types.Log` that `main` reads: the emitting contract, the topics and the
data payload.  (The block and transaction metadata of a log is only printed.) -/
structure Log where
  Address : Address
  Topics : List Hash
  Data : List Byte
deriving DecidableEq

/-- The anonymous struct `event` declared in the loop body (lines 71-87), fields in
declared order. -/
structure Event where
  CommitmentIndex : Hash
  Bidder : Address
  Commiter : Address
  Bid : Option Int
  BlockNumber : Nat
  BidHash : Hash
  DecayStartTimeStamp : Nat
  DecayEndTimeStamp : Nat
  TxnHash : GoString
  RevertingTxHashes : GoString
  CommitmentHash : Hash
  BidSignature : List Byte
  CommitmentSignature : List Byte
  DispatchTimestamp : Nat
  SharedSecretKey : List Byte
deriving DecidableEq

/-- The zero value of the struct, which `var event struct ...` creates afresh for
every matched log. -/
def Event.zero : Event where
  CommitmentIndex := BytesToHash []
  Bidder := BytesToAddress []
  Commiter := BytesToAddress []
  Bid := none
  BlockNumber := 0
  BidHash := BytesToHash []
  DecayStartTimeStamp := 0
  DecayEndTimeStamp := 0
  TxnHash := []
  RevertingTxHashes := []
  CommitmentHash := BytesToHash []
  BidSignature := []
  CommitmentSignature := []
  DispatchTimestamp := 0
  SharedSecretKey := []

/-- The ABI types that occur in the signature of `CommitmentStored`. -/
inductive AbiType where
  | bytes32
  | address
  | uint256
  | uint64
  | string
  | bytes
deriving DecidableEq

/-- The canonical name of an ABI type, as it stands in an event signature. -/
def AbiType.name : AbiType → String
  | .bytes32 => "bytes32"
  | .address => "address"
  | .uint256 => "uint256"
  | .uint64 => "uint64"
  | .string => "string"
  | .bytes => "bytes"

/-- A value of one of the Go types of the struct fields. -/
inductive GoValue where
  | hash (v : Hash)
  | address (v : Address)
  | bigInt (v : Option Int)
  | uint64 (v : Nat)
  | string (v : GoString)
  | bytes (v : List Byte)
deriving DecidableEq

/-- The ABI type that go-ethereum unpacks into each Go type: `bytes32` into a 32-byte
array (`common.Hash`), `address` into `common.Address`, `uint256` into `*big.Int`,
`uint64` into `uint64`, `string` into `string`, `bytes` into a byte slice. -/
def GoValue.abiType : GoValue → AbiType
  | .hash _ => .bytes32
  | .address _ => .address
  | .bigInt _ => .uint256
  | .uint64 _ => .uint64
  | .string _ => .string
  | .bytes _ => .bytes

/-- The fields of the struct in declared order, each with its Go type. -/
def Event.fields (e : Event) : List GoValue :=
  [.hash e.CommitmentIndex, .address e.Bidder, .address e.Commiter, .bigInt e.Bid,
   .uint64 e.BlockNumber, .hash e.BidHash, .uint64 e.DecayStartTimeStamp,
   .uint64 e.DecayEndTimeStamp, .string e.TxnHash, .string e.RevertingTxHashes,
   .hash e.CommitmentHash, .bytes e.BidSignature, .bytes e.CommitmentSignature,
   .uint64 e.DispatchTimestamp, .bytes e.SharedSecretKey]

/-! ## The signature and its hash (lines 63-64) -/

/-- The text of `eventSignature` (line 63). -/
def eventSignatureText : String :=
  "CommitmentStored(bytes32,address,address,uint256,uint64,bytes32,uint64,uint64,string,string,bytes32,bytes,bytes,uint64,bytes)"

/-- The variable `eventSignature` (line 63): the bytes of the signature text. -/
def eventSignature : List Byte :=
  utf8 eventSignatureText

/-- The variable `eventHash` (line 64). -/
def eventHash : Hash :=
  Keccak256Hash eventSignature

/-! ## The payload decoder -/

deriving instance DecidableEq for Except

/-- The slice `output[lo:hi]`. -/
def slice (output : List Byte) (lo hi : Nat) : List Byte :=
  (output.drop lo).take (hi - lo)

/-- The unsigned big-endian integer held by a sequence of bytes (`big.Int.SetBytes`). -/
def bigEndian (b : List Byte) : Nat :=
  b.foldl (fun acc x => acc * 256 + x.val) 0

/-- An event input of the ABI: its type and whether it is indexed. -/
structure Argument where
  Ty : AbiType
  Indexed : Bool
deriving DecidableEq

/-- Modelled from the spec: the ABI description is fetched at run time and is not under
src/.  The inputs of `CommitmentStored` in declared order, with the types of the signature
of line 63 and `CommitmentIndex`, the field the loop reads from the topics (lines 95-96),
as the only indexed input. -/
def commitmentStoredInputs : List Argument :=
  [⟨.bytes32, true⟩, ⟨.address, false⟩, ⟨.address, false⟩, ⟨.uint256, false⟩,
   ⟨.uint64, false⟩, ⟨.bytes32, false⟩, ⟨.uint64, false⟩, ⟨.uint64, false⟩,
   ⟨.string, false⟩, ⟨.string, false⟩, ⟨.bytes32, false⟩, ⟨.bytes, false⟩,
   ⟨.bytes, false⟩, ⟨.uint64, false⟩, ⟨.bytes, false⟩]

/-- The non-indexed inputs, in declared order: the fields carried by the data payload. -/
def nonIndexed (args : List Argument) : List AbiType :=
  (args.filter fun a => !a.Indexed).map fun a => a.Ty

/-- Whether the type is dynamic: its head word holds an offset to a length-prefixed
value in the tail. -/
def AbiType.requiresLengthPrefix : AbiType → Bool
  | .string => true
  | .bytes => true
  | _ => false

/-- Modelled from the spec: the bounds check of a dynamic field of the decoder of
go-ethereum, which is not under src/ (section 4.4: the head word holds a byte offset
relative to the start of the head region; at that offset stands one word with the byte
count, then the bytes; the offset and the declared length are each checked against the
total length of the data).  Returns where the bytes start and how many they are. -/
def lengthPrefixPointsTo (index : Nat) (output : List Byte) : Except String (Nat × Nat) :=
  let offsetEnd := bigEndian (slice output index (index + 32)) + 32
  if offsetEnd > output.length then
    .error "abi: cannot marshal in to go slice: offset would go over slice boundary"
  else
    let length := bigEndian (slice output (offsetEnd - 32) offsetEnd)
    if offsetEnd + length > output.length then
      .error "abi: cannot marshal in to go type: length insufficient"
    else
      .ok (offsetEnd, length)

/-- Modelled from the spec: the decoding of the field whose head word starts at byte
`index`, by the decoder of go-ethereum, which is not under src/ (section 4.4).  A head
word that does not fit in the data is a decode error.  A static field is read from its
head word: an integer is the big-endian value of the word, a `uint64` keeping the low 64
bits (excess high bits are permitted, section 4.4), an address is the low 20 bytes, a
`bytes32` the 32 bytes.  A dynamic field is read at its offset. -/
def toGoType (index : Nat) (t : AbiType) (output : List Byte) : Except String GoValue :=
  if index + 32 > output.length then
    .error "abi: cannot marshal in to go type: length insufficient"
  else if t.requiresLengthPrefix then
    match lengthPrefixPointsTo index output with
    | .error err => .error err
    | .ok (start, length) =>
      match t with
      | .string => .ok (.string (slice output start (start + length)))
      | _ => .ok (.bytes (slice output start (start + length)))
  else
    match t with
    | .uint256 => .ok (.bigInt (some (Int.ofNat (bigEndian (slice output index (index + 32))))))
    | .uint64 => .ok (.uint64 (bigEndian (slice output index (index + 32)) % 2 ^ 64))
    | .address => .ok (.address (BytesToAddress (slice output index (index + 32))))
    | _ => .ok (.hash (BytesToHash (slice output index (index + 32))))

/-- Modelled from the spec: the loop of the decoder over the non-indexed fields in
declared order, one head word each, the first at byte `index` (section 4.4); the first
field that fails to decode fails the whole payload. -/
def unpackValuesFrom (output : List Byte) : Nat → List AbiType → Except String (List GoValue)
  | _, [] => .ok []
  | index, t :: ts =>
    match toGoType index t output with
    | .error err => .error err
    | .ok v =>
      match unpackValuesFrom output (index + 32) ts with
      | .error err => .error err
      | .ok vs => .ok (v :: vs)

/-- Modelled from the spec: the method `Arguments.Unpack` of go-ethereum, which is not under
src/: an empty payload is an error when fields are expected, otherwise the fields are
decoded from byte 0. -/
def Unpack (args : List Argument) (data : List Byte) : Except String (List GoValue) :=
  if data.length = 0 then
    if (nonIndexed args).length ≠ 0 then
      .error "abi: attempting to unmarshall an empty string while arguments are expected"
    else
      .ok []
  else
    unpackValuesFrom data 0 (nonIndexed args)

/-- Modelled from the spec: the method `Arguments.Copy` of go-ethereum, which is not under
src/, for the struct of lines 71-87: the decoded values are stored in the fields of the
non-indexed inputs; `CommitmentIndex` is left as it was. -/
def Copy (event : Event) : List GoValue → Except String Event
  | [.address bidder, .address commiter, .bigInt bid, .uint64 blockNumber, .hash bidHash,
     .uint64 decayStart, .uint64 decayEnd, .string txnHash, .string revertingTxHashes,
     .hash commitmentHash, .bytes bidSignature, .bytes commitmentSignature,
     .uint64 dispatchTimestamp, .bytes sharedSecretKey] =>
    .ok { event with
      Bidder := bidder
      Commiter := commiter
      Bid := bid
      BlockNumber := blockNumber
      BidHash := bidHash
      DecayStartTimeStamp := decayStart
      DecayEndTimeStamp := decayEnd
      TxnHash := txnHash
      RevertingTxHashes := revertingTxHashes
      CommitmentHash := commitmentHash
      BidSignature := bidSignature
      CommitmentSignature := commitmentSignature
      DispatchTimestamp := dispatchTimestamp
      SharedSecretKey := sharedSecretKey }
  | _ => .error "abi: cannot unmarshal into the given struct"

/-- Modelled from the spec: the call
`contractABI.UnpackIntoInterface(&event, "CommitmentStored", vLog.Data)` of line 90, whose
decoder (go-ethereum) and ABI (fetched at run time) are not under src/: the payload is
decoded by the head/tail layout of section 4.4 and stored in the struct. -/
def UnpackIntoInterface (event : Event) (data : List Byte) : Except String Event :=
  match Unpack commitmentStoredInputs data with
  | .error err => .error err
  | .ok values => Copy event values

/-! ## The loop of `main` (lines 66-115) -/

/-- What the program prints for a matched log: the line `Log: ...` of line 68 and the
block `CommitmentStored Event: ...` of lines 98-113 with the 15 fields of the record. -/
inductive Output where
  | log (vLog : Log)
  | event (event : Event)
deriving DecidableEq

/-- The outcome of one iteration of the loop. -/
inductive Step where
  | noMatch
  | decoded (event : Event)
  | fatal (msg : String)
  | indexOutOfRange
deriving DecidableEq

/-- How the loop ends: it ran through all logs, `log.Fatalf` ended the process, or an
index out of range ended it. -/
inductive Exit where
  | ok
  | fatal (msg : String)
  | indexOutOfRange
deriving DecidableEq

/-- The guard of line 67: `len(vLog.Topics) > 0 && vLog.Topics[0] == eventHash`. -/
def isCommitmentStored (vLog : Log) : Bool :=
  match vLog.Topics with
  | [] => false
  | topic0 :: _ => topic0 == eventHash

/-- The body of the `if` (lines 68-113) for a matched log: the payload is unpacked into a
fresh struct, a failure being fatal (lines 90-93); then `CommitmentIndex` is set from
`vLog.Topics[1]` (line 96), which is an index out of range when the log has one topic. -/
def decodeCommitmentStored (unpack : Event → List Byte → Except String Event) (vLog : Log) :
    Step :=
  match unpack Event.zero vLog.Data with
  | .error err => .fatal ("Failed to unpack log data: " ++ err)
  | .ok event =>
    match vLog.Topics.get? 1 with
    | none => .indexOutOfRange
    | some topic1 => .decoded { event with CommitmentIndex := HexToHash topic1.Hex }

/-- One iteration of the loop (lines 67-114). -/
def processLog (unpack : Event → List Byte → Except String Event) (vLog : Log) : Step :=
  if isCommitmentStored vLog then decodeCommitmentStored unpack vLog else .noMatch

/-- The loop `for _, vLog := range logs` (lines 66-115): what is printed, and how the
run ends.  A fatal unpack error and an index out of range end the process after the
`Log:` line of that log. -/
def mainLoop (unpack : Event → List Byte → Except String Event) : List Log → List Output × Exit
  | [] => ([], .ok)
  | vLog :: rest =>
    match processLog unpack vLog with
    | .noMatch => mainLoop unpack rest
    | .fatal msg => ([.log vLog], .fatal msg)
    | .indexOutOfRange => ([.log vLog], .indexOutOfRange)
    | .decoded event =>
      (.log vLog :: .event event :: (mainLoop unpack rest).1, (mainLoop unpack rest).2)

/-- The records the run printed, each with the log it was printed for. -/
def records : List Output → List (Log × Event)
  | .log vLog :: .event event :: rest => (vLog, event) :: records rest
  | _ :: rest => records rest
  | [] => []

/-! ## Sample inputs -/

/-- The 32-byte big-endian word of a number. -/
def word (n : Nat) : List Byte :=
  (List.range 32).map fun i => Fin.ofNat (n / 256 ^ (31 - i))

/-- The address of the contract (line 22), the address of every sample log. -/
def contractAddress : Address :=
  BytesToAddress [0xCA, 0xC6, 0x8D, 0x97, 0xa5, 0x6b, 0x19, 0x20, 0x4D, 0xd3, 0xdb, 0xDC, 0x10,
    0x3C, 0xB2, 0x4D, 0x47, 0xA8, 0x25, 0xA3]

/-- A well-formed payload: 14 head words, then the tail with the string `ab` at offset
448 and an empty value at offset 512, which the other dynamic fields share. -/
def samplePayload : List Byte :=
  word 1 ++ word 2 ++ word 1000 ++ word 7 ++ word 5 ++ word 10 ++ word 20 ++
  word 448 ++ word 512 ++ word 6 ++ word 512 ++ word 512 ++ word 30 ++ word 512 ++
  (word 2 ++ (97 :: 98 :: List.replicate 30 0)) ++ word 0

/-- The record `samplePayload` decodes to, `CommitmentIndex` not yet set. -/
def sampleEvent : Event :=
  { Event.zero with
    Bidder := BytesToAddress (word 1)
    Commiter := BytesToAddress (word 2)
    Bid := some 1000
    BlockNumber := 7
    BidHash := BytesToHash (word 5)
    DecayStartTimeStamp := 10
    DecayEndTimeStamp := 20
    TxnHash := [97, 98]
    CommitmentHash := BytesToHash (word 6)
    DispatchTimestamp := 30 }

/-- A payload cut off inside the head region: 13 of the 14 head words. -/
def truncatedPayload : List Byte :=
  samplePayload.take 416

/-- A 32-byte topic value. -/
def sampleTopic : Hash :=
  BytesToHash (word 0x0123456789abcdef)

/-- A matched log that decodes: the signature hash, one indexed topic, a well-formed
payload. -/
def sampleLog : Log :=
  ⟨contractAddress, [eventHash, sampleTopic], samplePayload⟩

/-- A matched log whose payload is cut off inside the head region. -/
def truncatedLog : Log :=
  ⟨contractAddress, [eventHash, sampleTopic], truncatedPayload⟩

/-- A matched log with one topic too many and a well-formed payload. -/
def extraTopicLog : Log :=
  ⟨contractAddress, [eventHash, sampleTopic, BytesToHash (word 9)], samplePayload⟩

/-- A matched log with the signature hash as its only topic and a well-formed payload. -/
def signatureOnlyLog : Log :=
  ⟨contractAddress, [eventHash], samplePayload⟩

/-- The record printed for `sampleLog`. -/
def sampleRecord : Event :=
  { sampleEvent with CommitmentIndex := sampleTopic }

/-- The record a log yields when it is processed on its own, if it yields one. -/
def recordOf (unpack : Event → List Byte → Except String Event) (vLog : Log) :
    Option (Log × Event) :=
  match processLog unpack vLog with
  | .decoded event => some (vLog, event)
  | _ => none

/-! ## Lemmas on the hex text of a hash -/

theorem fromHexChar_hexDigit (n : Nat) (h : n < 16) : fromHexChar (hexDigit n) = some n := by
  interval_cases n <;> rfl

theorem byte_of_nibbles (v : Byte) : (Fin.ofNat (v.val / 16 * 16 + v.val % 16) : Byte) = v := by
  apply Fin.ext
  have hv := v.isLt
  simp only [Fin.ofNat, Fin.val_mk]
  omega

theorem Hex2Bytes_hexEncode (b : List Byte) : Hex2Bytes (hexEncode b) = b := by
  induction b with
  | nil => rfl
  | cons v rest ih =>
    have hv := v.isLt
    have h1 : fromHexChar (hexDigit (v.val / 16)) = some (v.val / 16) :=
      fromHexChar_hexDigit _ (by omega)
    have h2 : fromHexChar (hexDigit (v.val % 16)) = some (v.val % 16) :=
      fromHexChar_hexDigit _ (by omega)
    simp only [hexEncode, Hex2Bytes, h1, h2, ih, byte_of_nibbles]

theorem hexEncode_length (b : List Byte) : (hexEncode b).length = 2 * b.length := by
  induction b with
  | nil => rfl
  | cons v rest ih => simp only [hexEncode, List.length_cons, ih]; omega

theorem FromHex_hexutilEncode (b : List Byte) : FromHex (hexutilEncode b) = b := by
  have hlen : (hexEncode b).length % 2 = 0 := by rw [hexEncode_length]; omega
  have hp : has0xPrefix (48 :: 120 :: hexEncode b) = true := rfl
  simp only [FromHex, hexutilEncode, hp, if_true, List.drop_succ_cons, List.drop_zero, hlen,
    Nat.zero_ne_one, if_false, Hex2Bytes_hexEncode]

theorem setBytes_of_length (n : Nat) (b : List Byte) (h : b.length = n) : setBytes n b = b := by
  simp [setBytes, h]

theorem HexToHash_Hex (h : Hash) : HexToHash h.Hex = h := by
  cases h with
  | mk bytes size =>
    simp only [HexToHash, Hash.Hex, FromHex_hexutilEncode, BytesToHash, Hash.mk.injEq]
    exact setBytes_of_length 32 bytes size

/-! ## Lemmas on the loop -/

theorem isCommitmentStored_iff (vLog : Log) :
    isCommitmentStored vLog = true ↔ ∃ rest, vLog.Topics = eventHash :: rest := by
  unfold isCommitmentStored
  cases h : vLog.Topics with
  | nil => simp
  | cons topic0 rest => simp

theorem decodeCommitmentStored_ne_noMatch (unpack : Event → List Byte → Except String Event)
    (vLog : Log) : decodeCommitmentStored unpack vLog ≠ .noMatch := by
  unfold decodeCommitmentStored
  cases unpack Event.zero vLog.Data with
  | error err => simp
  | ok event =>
    cases vLog.Topics.get? 1 with
    | none => simp
    | some topic1 => simp

theorem processLog_of_match (unpack : Event → List Byte → Except String Event) (vLog : Log)
    (h : isCommitmentStored vLog = true) :
    processLog unpack vLog = decodeCommitmentStored unpack vLog := by
  simp [processLog, h]

theorem processLog_of_not_match (unpack : Event → List Byte → Except String Event) (vLog : Log)
    (h : isCommitmentStored vLog = false) : processLog unpack vLog = .noMatch := by
  simp [processLog, h]

theorem processLog_decoded (unpack : Event → List Byte → Except String Event) (vLog : Log)
    (event : Event) (topic1 : Hash) (hmatch : isCommitmentStored vLog = true)
    (htopic : vLog.Topics.get? 1 = some topic1)
    (hdata : unpack Event.zero vLog.Data = .ok event) :
    processLog unpack vLog = .decoded { event with CommitmentIndex := topic1 } := by
  rw [processLog_of_match unpack vLog hmatch]
  simp only [decodeCommitmentStored, hdata, htopic, HexToHash_Hex]

theorem processLog_fatal (unpack : Event → List Byte → Except String Event) (vLog : Log)
    (err : String) (hmatch : isCommitmentStored vLog = true)
    (hdata : unpack Event.zero vLog.Data = .error err) :
    processLog unpack vLog = .fatal ("Failed to unpack log data: " ++ err) := by
  rw [processLog_of_match unpack vLog hmatch]
  simp only [decodeCommitmentStored, hdata]

theorem processLog_indexOutOfRange (unpack : Event → List Byte → Except String Event)
    (vLog : Log) (event : Event) (hmatch : isCommitmentStored vLog = true)
    (htopic : vLog.Topics.get? 1 = none)
    (hdata : unpack Event.zero vLog.Data = .ok event) :
    processLog unpack vLog = .indexOutOfRange := by
  rw [processLog_of_match unpack vLog hmatch]
  simp only [decodeCommitmentStored, hdata, htopic]

theorem mainLoop_single (unpack : Event → List Byte → Except String Event) (vLog : Log) :
    mainLoop unpack [vLog] =
      match processLog unpack vLog with
      | .noMatch => ([], .ok)
      | .fatal msg => ([.log vLog], .fatal msg)
      | .indexOutOfRange => ([.log vLog], .indexOutOfRange)
      | .decoded event => ([.log vLog, .event event], .ok) := by
  cases h : processLog unpack vLog <;> simp [mainLoop, h]

theorem mainLoop_append (unpack : Event → List Byte → Except String Event)
    (before rest : List Log)
    (hbefore : ∀ l ∈ before, isCommitmentStored l = true → ∃ e, processLog unpack l = .decoded e) :
    mainLoop unpack (before ++ rest) =
      ((mainLoop unpack before).1 ++ (mainLoop unpack rest).1, (mainLoop unpack rest).2) := by
  induction before with
  | nil => simp [mainLoop]
  | cons l ls ih =>
    have ih1 := ih (fun x hx => hbefore x (List.mem_cons_of_mem _ hx))
    cases hl : isCommitmentStored l with
    | false =>
      have hp := processLog_of_not_match unpack l hl
      have e1 : mainLoop unpack (l :: (ls ++ rest)) = mainLoop unpack (ls ++ rest) := by
        simp only [mainLoop, hp]
      have e2 : mainLoop unpack (l :: ls) = mainLoop unpack ls := by
        simp only [mainLoop, hp]
      rw [List.cons_append, e1, e2, ih1]
    | true =>
      obtain ⟨e, he⟩ := hbefore l (List.mem_cons_self _ _) hl
      have e1 : mainLoop unpack (l :: (ls ++ rest)) =
          (.log l :: .event e :: (mainLoop unpack (ls ++ rest)).1,
            (mainLoop unpack (ls ++ rest)).2) := by
        simp only [mainLoop, he]
      have e2 : mainLoop unpack (l :: ls) =
          (.log l :: .event e :: (mainLoop unpack ls).1, (mainLoop unpack ls).2) := by
        simp only [mainLoop, he]
      rw [List.cons_append, e1, e2, ih1]
      simp only [List.cons_append]

theorem records_mainLoop_append (unpack : Event → List Byte → Except String Event)
    (logs : List Log) (tail : List Output)
    (hlogs : ∀ l ∈ logs, isCommitmentStored l = true → ∃ e, processLog unpack l = .decoded e) :
    records ((mainLoop unpack logs).1 ++ tail) = logs.filterMap (recordOf unpack) ++ records tail := by
  induction logs with
  | nil => simp [mainLoop]
  | cons l ls ih =>
    have ih1 := ih (fun x hx => hlogs x (List.mem_cons_of_mem _ hx))
    cases hl : isCommitmentStored l with
    | false =>
      have hp := processLog_of_not_match unpack l hl
      simp only [mainLoop, hp, ih1, List.filterMap_cons, recordOf]
    | true =>
      obtain ⟨e, he⟩ := hlogs l (List.mem_cons_self _ _) hl
      simp only [mainLoop, he, List.cons_append, records, ih1, List.filterMap_cons, recordOf]

theorem records_mainLoop (unpack : Event → List Byte → Except String Event) (logs : List Log)
    (hlogs : ∀ l ∈ logs, isCommitmentStored l = true → ∃ e, processLog unpack l = .decoded e) :
    records (mainLoop unpack logs).1 = logs.filterMap (recordOf unpack) := by
  have h := records_mainLoop_append unpack logs [] hlogs
  simpa [records] using h

theorem mem_filterMap_recordOf (unpack : Event → List Byte → Except String Event)
    (logs : List Log) (vLog : Log) (e : Event) (hmem : vLog ∈ logs) :
    (vLog, e) ∈ logs.filterMap (recordOf unpack) ↔ processLog unpack vLog = .decoded e := by
  rw [List.mem_filterMap]
  constructor
  · rintro ⟨l, _, hl⟩
    unfold recordOf at hl
    cases hp : processLog unpack l with
    | decoded event =>
      rw [hp] at hl
      simp only [Option.some.injEq, Prod.mk.injEq] at hl
      obtain ⟨h1, h2⟩ := hl
      subst h1
      subst h2
      exact hp
    | noMatch => rw [hp] at hl; simp at hl
    | fatal msg => rw [hp] at hl; simp at hl
    | indexOutOfRange => rw [hp] at hl; simp at hl
  · intro hp
    exact ⟨vLog, hmem, by simp [recordOf, hp]⟩

/-! ## Lemmas on the payload decoder -/

theorem toGoType_ok_length (index : Nat) (t : AbiType) (output : List Byte) (v : GoValue)
    (h : toGoType index t output = .ok v) : index + 32 ≤ output.length := by
  unfold toGoType at h
  split at h
  · simp at h
  · omega

theorem unpackValuesFrom_ok_length (output : List Byte) (ts : List AbiType) :
    ∀ (index : Nat) (vs : List GoValue), unpackValuesFrom output index ts = .ok vs →
      ts ≠ [] → index + 32 * ts.length ≤ output.length := by
  induction ts with
  | nil => intro index vs _ hne; exact absurd rfl hne
  | cons t rest ih =>
    intro index vs h _
    unfold unpackValuesFrom at h
    cases hv : toGoType index t output with
    | error err => rw [hv] at h; simp at h
    | ok v =>
      have hlen := toGoType_ok_length index t output v hv
      rw [hv] at h
      cases hr : unpackValuesFrom output (index + 32) rest with
      | error err => rw [hr] at h; simp at h
      | ok vs1 =>
        cases rest with
        | nil => simp only [List.length_cons, List.length_nil]; omega
        | cons t2 rest2 =>
          have := ih (index + 32) vs1 hr (by simp)
          simp only [List.length_cons] at this ⊢
          omega

theorem nonIndexed_commitmentStoredInputs_length :
    (nonIndexed commitmentStoredInputs).length = 14 := by
  decide

theorem UnpackIntoInterface_ok_length (event result : Event) (data : List Byte)
    (h : UnpackIntoInterface event data = .ok result) :
    32 * (nonIndexed commitmentStoredInputs).length ≤ data.length := by
  unfold UnpackIntoInterface at h
  cases hu : Unpack commitmentStoredInputs data with
  | error err => rw [hu] at h; simp at h
  | ok values =>
    unfold Unpack at hu
    have hn : (nonIndexed commitmentStoredInputs) ≠ [] := by
      intro h0
      have := nonIndexed_commitmentStoredInputs_length
      rw [h0] at this
      simp at this
    split at hu
    · rw [if_pos (by rw [nonIndexed_commitmentStoredInputs_length]; decide)] at hu
      simp at hu
    · have := unpackValuesFrom_ok_length data _ 0 values hu hn
      omega

theorem UnpackIntoInterface_short (event : Event) (data : List Byte)
    (hshort : data.length < 32 * (nonIndexed commitmentStoredInputs).length) :
    ∃ err, UnpackIntoInterface event data = .error err := by
  cases h : UnpackIntoInterface event data with
  | error err => exact ⟨err, rfl⟩
  | ok result =>
    have := UnpackIntoInterface_ok_length event result data h
    omega

/-! ## The sample inputs, evaluated -/

theorem UnpackIntoInterface_samplePayload :
    UnpackIntoInterface Event.zero samplePayload = .ok sampleEvent := by
  decide!

theorem UnpackIntoInterface_truncatedPayload :
    UnpackIntoInterface Event.zero truncatedPayload =
      .error "abi: cannot marshal in to go slice: offset would go over slice boundary" := by
  decide!

theorem eventHash_Hex :
    eventHash.Hex = utf8 "0xe44dd4d002deb2c79cf08ce285a9d80c69753f31ca65c8e49f0a60d27ed9fea3" := by
  decide!

theorem isCommitmentStored_sampleLog : isCommitmentStored sampleLog = true :=
  (isCommitmentStored_iff sampleLog).2 ⟨_, rfl⟩

theorem isCommitmentStored_truncatedLog : isCommitmentStored truncatedLog = true :=
  (isCommitmentStored_iff truncatedLog).2 ⟨_, rfl⟩

theorem isCommitmentStored_extraTopicLog : isCommitmentStored extraTopicLog = true :=
  (isCommitmentStored_iff extraTopicLog).2 ⟨_, rfl⟩

theorem isCommitmentStored_signatureOnlyLog : isCommitmentStored signatureOnlyLog = true :=
  (isCommitmentStored_iff signatureOnlyLog).2 ⟨_, rfl⟩

theorem processLog_sampleLog :
    processLog UnpackIntoInterface sampleLog = .decoded sampleRecord :=
  processLog_decoded UnpackIntoInterface sampleLog sampleEvent sampleTopic
    isCommitmentStored_sampleLog rfl UnpackIntoInterface_samplePayload

theorem processLog_extraTopicLog :
    processLog UnpackIntoInterface extraTopicLog = .decoded sampleRecord :=
  processLog_decoded UnpackIntoInterface extraTopicLog sampleEvent sampleTopic
    isCommitmentStored_extraTopicLog rfl UnpackIntoInterface_samplePayload

theorem processLog_truncatedLog :
    processLog UnpackIntoInterface truncatedLog =
      .fatal "Failed to unpack log data: abi: cannot marshal in to go slice: offset would go over slice boundary" :=
  processLog_fatal UnpackIntoInterface truncatedLog _ isCommitmentStored_truncatedLog
    UnpackIntoInterface_truncatedPayload

theorem processLog_signatureOnlyLog :
    processLog UnpackIntoInterface signatureOnlyLog = .indexOutOfRange :=
  processLog_indexOutOfRange UnpackIntoInterface signatureOnlyLog sampleEvent
    isCommitmentStored_signatureOnlyLog rfl UnpackIntoInterface_samplePayload

theorem samplePayload_length : samplePayload.length = 544 := by
  decide!

theorem truncatedLog_short :
    truncatedLog.Data.length < 32 * (nonIndexed commitmentStoredInputs).length := by
  have h : truncatedLog.Data = samplePayload.take 416 := rfl
  rw [h, List.length_take, samplePayload_length, nonIndexed_commitmentStoredInputs_length]
  decide

theorem processLog_decoded_inv (unpack : Event → List Byte → Except String Event) (vLog : Log)
    (record : Event) (h : processLog unpack vLog = .decoded record) :
    ∃ event topic1, unpack Event.zero vLog.Data = .ok event ∧
      vLog.Topics.get? 1 = some topic1 ∧ record = { event with CommitmentIndex := topic1 } := by
  cases hm : isCommitmentStored vLog with
  | false =>
    rw [processLog_of_not_match unpack vLog hm] at h
    exact Step.noConfusion h
  | true =>
    cases hdata : unpack Event.zero vLog.Data with
    | error err =>
      rw [processLog_fatal unpack vLog err hm hdata] at h
      exact Step.noConfusion h
    | ok event =>
      cases htopic : vLog.Topics.get? 1 with
      | none =>
        rw [processLog_indexOutOfRange unpack vLog event hm htopic hdata] at h
        exact Step.noConfusion h
      | some topic1 =>
        rw [processLog_decoded unpack vLog event topic1 hm htopic hdata] at h
        exact ⟨event, topic1, rfl, rfl, (Step.decoded.inj h).symm⟩

/-! ## Lemmas on the place of a log in the run -/

theorem isCommitmentStored_iff_head (vLog : Log) :
    isCommitmentStored vLog = true ↔
      vLog.Topics ≠ [] ∧
        vLog.Topics.head? = some (Keccak256Hash (utf8 eventSignatureText)) := by
  rw [isCommitmentStored_iff]
  constructor
  · rintro ⟨rest, hrest⟩
    rw [hrest]
    exact ⟨by simp, rfl⟩
  · rintro ⟨hne, hhead⟩
    cases ht : vLog.Topics with
    | nil => exact absurd ht hne
    | cons topic0 rest =>
      rw [ht] at hhead
      simp only [List.head?_cons, Option.some.injEq] at hhead
      exact ⟨rest, by rw [hhead]; rfl⟩

theorem mainLoop_cons_noMatch (unpack : Event → List Byte → Except String Event) (vLog : Log)
    (rest : List Log) (h : processLog unpack vLog = .noMatch) :
    mainLoop unpack (vLog :: rest) = mainLoop unpack rest := by
  simp only [mainLoop, h]

theorem mainLoop_cons_decoded (unpack : Event → List Byte → Except String Event) (vLog : Log)
    (rest : List Log) (event : Event) (h : processLog unpack vLog = .decoded event) :
    mainLoop unpack (vLog :: rest) =
      (.log vLog :: .event event :: (mainLoop unpack rest).1, (mainLoop unpack rest).2) := by
  simp only [mainLoop, h]

theorem mainLoop_cons_fatal (unpack : Event → List Byte → Except String Event) (vLog : Log)
    (rest : List Log) (msg : String) (h : processLog unpack vLog = .fatal msg) :
    mainLoop unpack (vLog :: rest) = ([.log vLog], .fatal msg) := by
  simp only [mainLoop, h]

theorem mainLoop_cons_indexOutOfRange (unpack : Event → List Byte → Except String Event)
    (vLog : Log) (rest : List Log) (h : processLog unpack vLog = .indexOutOfRange) :
    mainLoop unpack (vLog :: rest) = ([.log vLog], .indexOutOfRange) := by
  simp only [mainLoop, h]

theorem mainLoop_cons_of_match (unpack : Event → List Byte → Except String Event) (vLog : Log)
    (rest : List Log) (h : isCommitmentStored vLog = true) :
    ∃ tail, (mainLoop unpack (vLog :: rest)).1 = .log vLog :: tail := by
  have hne := decodeCommitmentStored_ne_noMatch unpack vLog
  rw [← processLog_of_match unpack vLog h] at hne
  cases hp : processLog unpack vLog with
  | noMatch => exact absurd hp hne
  | decoded event => exact ⟨_, by rw [mainLoop_cons_decoded unpack vLog rest event hp]⟩
  | fatal msg => exact ⟨[], by rw [mainLoop_cons_fatal unpack vLog rest msg hp]⟩
  | indexOutOfRange => exact ⟨[], by rw [mainLoop_cons_indexOutOfRange unpack vLog rest hp]⟩

theorem isCommitmentStored_of_log_mem (unpack : Event → List Byte → Except String Event)
    (logs : List Log) (vLog : Log) (h : Output.log vLog ∈ (mainLoop unpack logs).1) :
    isCommitmentStored vLog = true := by
  induction logs with
  | nil => simp [mainLoop] at h
  | cons l ls ih =>
    cases hm : isCommitmentStored l with
    | false =>
      rw [mainLoop_cons_noMatch unpack l ls (processLog_of_not_match unpack l hm)] at h
      exact ih h
    | true =>
      cases hp : processLog unpack l with
      | noMatch =>
        rw [mainLoop_cons_noMatch unpack l ls hp] at h
        exact ih h
      | decoded event =>
        rw [mainLoop_cons_decoded unpack l ls event hp] at h
        simp only [List.mem_cons, Output.log.injEq, reduceCtorEq, false_or] at h
        rcases h with h | h
        · rw [h]
          exact hm
        · exact ih h
      | fatal msg =>
        rw [mainLoop_cons_fatal unpack l ls msg hp] at h
        simp only [List.mem_singleton, Output.log.injEq] at h
        rw [h]
        exact hm
      | indexOutOfRange =>
        rw [mainLoop_cons_indexOutOfRange unpack l ls hp] at h
        simp only [List.mem_singleton, Output.log.injEq] at h
        rw [h]
        exact hm

theorem sampleLog_ne_truncatedLog : sampleLog ≠ truncatedLog := by
  intro h
  have hd : samplePayload = samplePayload.take 416 := congrArg Log.Data h
  have hl := congrArg List.length hd
  rw [List.length_take, samplePayload_length] at hl
  exact absurd hl (by decide)

/-! ## The claims -/

/-- C1 (counterexample): in the list of a log with a truncated payload followed by the
sample log, the sample log has a non-empty list of topics whose first is the hash of the
signature, yet it is not treated: neither its log line nor any record is printed, because
the run ended at the log before it. -/
theorem C1_matched_log_after_failure_is_not_treated :
    sampleLog ∈ [truncatedLog, sampleLog] ∧
    sampleLog.Topics ≠ [] ∧
    sampleLog.Topics.head? = some (Keccak256Hash (utf8 eventSignatureText)) ∧
    Output.log sampleLog ∉ (mainLoop UnpackIntoInterface [truncatedLog, sampleLog]).1 ∧
    ∀ record, Output.event record ∉ (mainLoop UnpackIntoInterface [truncatedLog, sampleLog]).1 := by
  have hrun := mainLoop_cons_fatal UnpackIntoInterface truncatedLog [sampleLog] _
    processLog_truncatedLog
  refine ⟨by simp, by simp [sampleLog], rfl, ?_, ?_⟩
  · rw [hrun]
    simp only [List.mem_singleton, Output.log.injEq]
    exact sampleLog_ne_truncatedLog
  · intro record
    rw [hrun]
    simp

/-- C1 (amended): for a log of the list that the loop reaches, every matched log before it
having been decoded, the log is treated as a CommitmentStored event exactly when its topics
are non-empty and the first is the Keccak-256 hash of the signature text.  Treated means:
its log line is printed right after the output of the logs before it and its payload is
unpacked, a failure ending the run with the fatal error and a success with a second topic
printing the record before the loop goes on.  Any other log that is reached leaves the
run as it is without the log: no output, no record, no error. -/
theorem C1_reached_log_is_treated_iff_topic0_is_signature_hash
    (unpack : Event → List Byte → Except String Event) (before after : List Log) (vLog : Log)
    (hreach : ∀ l ∈ before, isCommitmentStored l = true →
      ∃ e, processLog unpack l = .decoded e) :
    (Output.log vLog ∈ (mainLoop unpack (before ++ vLog :: after)).1 ↔
      vLog.Topics ≠ [] ∧
        vLog.Topics.head? = some (Keccak256Hash (utf8 eventSignatureText))) ∧
    ((vLog.Topics ≠ [] ∧
        vLog.Topics.head? = some (Keccak256Hash (utf8 eventSignatureText))) →
      (∃ tail, (mainLoop unpack (before ++ vLog :: after)).1 =
        (mainLoop unpack before).1 ++ .log vLog :: tail) ∧
      (∀ err, unpack Event.zero vLog.Data = .error err →
        mainLoop unpack (before ++ vLog :: after) =
          ((mainLoop unpack before).1 ++ [.log vLog],
            .fatal ("Failed to unpack log data: " ++ err))) ∧
      (∀ event topic1, unpack Event.zero vLog.Data = .ok event →
        vLog.Topics.get? 1 = some topic1 →
        mainLoop unpack (before ++ vLog :: after) =
          ((mainLoop unpack before).1 ++
              .log vLog :: .event { event with CommitmentIndex := topic1 } ::
                (mainLoop unpack after).1,
            (mainLoop unpack after).2))) ∧
    (¬ (vLog.Topics ≠ [] ∧
        vLog.Topics.head? = some (Keccak256Hash (utf8 eventSignatureText))) →
      mainLoop unpack (before ++ vLog :: after) = mainLoop unpack (before ++ after)) := by
  have happ := mainLoop_append unpack before (vLog :: after) hreach
  have hmatched : isCommitmentStored vLog = true →
      ∃ tail, (mainLoop unpack (before ++ vLog :: after)).1 =
        (mainLoop unpack before).1 ++ .log vLog :: tail := by
    intro hm
    obtain ⟨tail, htail⟩ := mainLoop_cons_of_match unpack vLog after hm
    exact ⟨tail, by rw [happ, htail]⟩
  refine ⟨?_, ?_, ?_⟩
  · rw [← isCommitmentStored_iff_head]
    constructor
    · exact isCommitmentStored_of_log_mem unpack _ vLog
    · intro hm
      obtain ⟨tail, htail⟩ := hmatched hm
      rw [htail]
      simp
  · intro hguard
    have hm := (isCommitmentStored_iff_head vLog).2 hguard
    refine ⟨hmatched hm, ?_, ?_⟩
    · intro err herr
      rw [happ, mainLoop_cons_fatal unpack vLog after _ (processLog_fatal unpack vLog err hm herr)]
    · intro event topic1 hdata htopic
      rw [happ, mainLoop_cons_decoded unpack vLog after _
        (processLog_decoded unpack vLog event topic1 hm htopic hdata)]
  · intro hguard
    have hm : isCommitmentStored vLog = false := by
      cases h : isCommitmentStored vLog with
      | false => rfl
      | true => exact absurd ((isCommitmentStored_iff_head vLog).1 h) hguard
    rw [happ, mainLoop_cons_noMatch unpack vLog after (processLog_of_not_match unpack vLog hm),
      mainLoop_append unpack before after hreach]

/-- C1 (witness): the amended claim at the sample log, reached after a log without topics
and a decoded log, and followed by a log with a truncated payload. -/
theorem C1_reached_log_is_treated_iff_topic0_is_signature_hash_witness :
    (∀ l ∈ [⟨contractAddress, [], []⟩, extraTopicLog], isCommitmentStored l = true →
      ∃ e, processLog UnpackIntoInterface l = .decoded e) ∧
    (Output.log sampleLog ∈ (mainLoop UnpackIntoInterface
        ([⟨contractAddress, [], []⟩, extraTopicLog] ++ sampleLog :: [truncatedLog])).1 ↔
      sampleLog.Topics ≠ [] ∧
        sampleLog.Topics.head? = some (Keccak256Hash (utf8 eventSignatureText))) :=
  have hreach : ∀ l ∈ [⟨contractAddress, [], []⟩, extraTopicLog],
      isCommitmentStored l = true → ∃ e, processLog UnpackIntoInterface l = .decoded e := by
    intro l hl hm
    simp only [List.mem_cons, List.mem_singleton, List.not_mem_nil, or_false] at hl
    rcases hl with h | h
    · rw [h] at hm
      exact Bool.noConfusion hm
    · exact ⟨sampleRecord, h ▸ processLog_extraTopicLog⟩
  ⟨hreach,
    (C1_reached_log_is_treated_iff_topic0_is_signature_hash UnpackIntoInterface
      [⟨contractAddress, [], []⟩, extraTopicLog] [truncatedLog] sampleLog hreach).1⟩

/-- C2 (counterexample): a matched log with three topics, one more than the event has
indexed fields plus one, is not rejected for its topic count; its record is printed and
the run ends normally. -/
theorem C2_extra_topic_log_is_decoded :
    isCommitmentStored extraTopicLog = true ∧ extraTopicLog.Topics.length = 3 ∧
    processLog UnpackIntoInterface extraTopicLog = .decoded sampleRecord ∧
    mainLoop UnpackIntoInterface [extraTopicLog] =
      ([.log extraTopicLog, .event sampleRecord], .ok) := by
  refine ⟨isCommitmentStored_extraTopicLog, rfl, processLog_extraTopicLog, ?_⟩
  rw [mainLoop_single, processLog_extraTopicLog]

/-- C2 (amended): the number of topics of a matched log is not checked.  A matched log with
at least two topics whose payload decodes yields its record, with CommitmentIndex equal to
the second topic, whatever topics follow it. -/
theorem C2_topic_count_is_not_checked
    (unpack : Event → List Byte → Except String Event) (address : Address) (topic1 : Hash)
    (extra : List Hash) (data : List Byte) (event : Event)
    (hdata : unpack Event.zero data = .ok event) :
    processLog unpack ⟨address, eventHash :: topic1 :: extra, data⟩ =
      .decoded { event with CommitmentIndex := topic1 } ∧
    mainLoop unpack [⟨address, eventHash :: topic1 :: extra, data⟩] =
      ([.log ⟨address, eventHash :: topic1 :: extra, data⟩,
        .event { event with CommitmentIndex := topic1 }], .ok) := by
  have hp : processLog unpack ⟨address, eventHash :: topic1 :: extra, data⟩ =
      .decoded { event with CommitmentIndex := topic1 } :=
    processLog_decoded unpack _ event topic1 ((isCommitmentStored_iff _).2 ⟨_, rfl⟩) rfl hdata
  refine ⟨hp, ?_⟩
  rw [mainLoop_single, hp]

/-- C2 (witness): the amended claim at the sample payload with two extra topics. -/
theorem C2_topic_count_is_not_checked_witness :
    UnpackIntoInterface Event.zero samplePayload = .ok sampleEvent ∧
    processLog UnpackIntoInterface
        ⟨contractAddress, [eventHash, sampleTopic, sampleTopic, sampleTopic], samplePayload⟩ =
      .decoded sampleRecord :=
  ⟨UnpackIntoInterface_samplePayload,
    (C2_topic_count_is_not_checked UnpackIntoInterface contractAddress sampleTopic
      [sampleTopic, sampleTopic] samplePayload sampleEvent
      UnpackIntoInterface_samplePayload).1⟩

/-- C3: a log with no topics is never matched, whatever its address and data: nothing is
decoded or printed for it and the loop goes on. -/
theorem C3_empty_topics_never_match
    (unpack : Event → List Byte → Except String Event) (address : Address) (data : List Byte) :
    isCommitmentStored ⟨address, [], data⟩ = false ∧
    processLog unpack ⟨address, [], data⟩ = .noMatch ∧
    mainLoop unpack [⟨address, [], data⟩] = ([], .ok) := by
  have hp : processLog unpack ⟨address, [], data⟩ = .noMatch :=
    processLog_of_not_match unpack _ rfl
  refine ⟨rfl, hp, ?_⟩
  rw [mainLoop_single, hp]

/-- C4 (counterexample): in the list of a log with a truncated payload followed by a log
that decodes on its own, the run ends at the first log with a fatal error and prints no
record for the second. -/
theorem C4_later_log_is_not_decoded :
    isCommitmentStored truncatedLog = true ∧
    UnpackIntoInterface Event.zero truncatedLog.Data =
      .error "abi: cannot marshal in to go slice: offset would go over slice boundary" ∧
    processLog UnpackIntoInterface sampleLog = .decoded sampleRecord ∧
    mainLoop UnpackIntoInterface [truncatedLog, sampleLog] =
      ([.log truncatedLog],
        .fatal "Failed to unpack log data: abi: cannot marshal in to go slice: offset would go over slice boundary") ∧
    records (mainLoop UnpackIntoInterface [truncatedLog, sampleLog]).1 = [] := by
  have hrun : mainLoop UnpackIntoInterface [truncatedLog, sampleLog] =
      ([.log truncatedLog],
        .fatal "Failed to unpack log data: abi: cannot marshal in to go slice: offset would go over slice boundary") := by
    simp only [mainLoop, processLog_truncatedLog]
  refine ⟨isCommitmentStored_truncatedLog, UnpackIntoInterface_truncatedPayload,
    processLog_sampleLog, hrun, ?_⟩
  rw [hrun]
  rfl

/-- C4 (amended): a matched log whose payload fails to decode ends the run.  The records of
the logs before it have been printed, the failure is reported as a fatal error after the
log line of the failing log, and no log after it is processed, whatever it holds. -/
theorem C4_decode_failure_ends_the_run
    (unpack : Event → List Byte → Except String Event) (before after : List Log) (vLog : Log)
    (err : String)
    (hbefore : ∀ l ∈ before, isCommitmentStored l = true →
      ∃ e, processLog unpack l = .decoded e)
    (hmatch : isCommitmentStored vLog = true)
    (hfail : unpack Event.zero vLog.Data = .error err) :
    mainLoop unpack (before ++ vLog :: after) =
      ((mainLoop unpack before).1 ++ [.log vLog],
        .fatal ("Failed to unpack log data: " ++ err)) ∧
    records (mainLoop unpack (before ++ vLog :: after)).1 =
      before.filterMap (recordOf unpack) := by
  have hp := processLog_fatal unpack vLog err hmatch hfail
  have hrest : mainLoop unpack (vLog :: after) =
      ([.log vLog], .fatal ("Failed to unpack log data: " ++ err)) := by
    simp only [mainLoop, hp]
  have hrun := mainLoop_append unpack before (vLog :: after) hbefore
  rw [hrest] at hrun
  refine ⟨hrun, ?_⟩
  rw [hrun, records_mainLoop_append unpack before [.log vLog] hbefore]
  simp [records]

/-- C4 (witness): the amended claim at a decodable log, then a truncated one, then a
decodable one. -/
theorem C4_decode_failure_ends_the_run_witness :
    isCommitmentStored truncatedLog = true ∧
    mainLoop UnpackIntoInterface ([sampleLog] ++ truncatedLog :: [sampleLog]) =
      ((mainLoop UnpackIntoInterface [sampleLog]).1 ++ [.log truncatedLog],
        .fatal ("Failed to unpack log data: " ++
          "abi: cannot marshal in to go slice: offset would go over slice boundary")) :=
  ⟨isCommitmentStored_truncatedLog,
    (C4_decode_failure_ends_the_run UnpackIntoInterface [sampleLog] [sampleLog] truncatedLog
      "abi: cannot marshal in to go slice: offset would go over slice boundary"
      (by
        intro l hl _
        rw [List.mem_singleton] at hl
        subst hl
        exact ⟨sampleRecord, processLog_sampleLog⟩)
      isCommitmentStored_truncatedLog UnpackIntoInterface_truncatedPayload).1⟩

/-- C5: the text that is hashed is the canonical signature of the event: the name
CommitmentStored, an opening bracket, the canonical ABI type names of the 15 fields of the
struct in declared order joined by commas, a closing bracket, with no space in it; and
`eventHash` is the Keccak-256 hash of the bytes of that text. -/
theorem C5_signature_is_canonical (e : Event) :
    eventHash = Keccak256Hash (utf8 eventSignatureText) ∧
    eventSignatureText =
      "CommitmentStored" ++ "(" ++
        ",".intercalate (e.fields.map fun v => v.abiType.name) ++ ")" ∧
    e.fields.length = 15 ∧
    Char.ofNat 32 ∉ eventSignatureText.toList := by
  refine ⟨rfl, ?_, rfl, by decide⟩
  simp only [Event.fields, List.map, GoValue.abiType, AbiType.name]
  decide

/-- C6: for a matched log with at least two topics whose payload decodes, the record is
produced and its CommitmentIndex is the second topic; the hex text of a hash parsed back
is that hash, for every 32-byte value; and the index is the same for every payload that
decodes. -/
theorem C6_commitmentIndex_is_topic1
    (unpack : Event → List Byte → Except String Event) (vLog : Log) (event : Event)
    (topic1 : Hash) (hmatch : isCommitmentStored vLog = true)
    (htopic : vLog.Topics.get? 1 = some topic1)
    (hdata : unpack Event.zero vLog.Data = .ok event) :
    (∃ record, processLog unpack vLog = .decoded record ∧ record.CommitmentIndex = topic1 ∧
      record = { event with CommitmentIndex := topic1 }) ∧
    (∀ h : Hash, HexToHash h.Hex = h) ∧
    (∀ (data2 : List Byte) (event2 : Event), unpack Event.zero data2 = .ok event2 →
      ∃ record2, processLog unpack { vLog with Data := data2 } = .decoded record2 ∧
        record2.CommitmentIndex = topic1) := by
  refine ⟨⟨_, processLog_decoded unpack vLog event topic1 hmatch htopic hdata, rfl, rfl⟩,
    HexToHash_Hex, ?_⟩
  intro data2 event2 h2
  have hmatch2 : isCommitmentStored { vLog with Data := data2 } = true := hmatch
  exact ⟨_, processLog_decoded unpack { vLog with Data := data2 } event2 topic1 hmatch2 htopic h2,
    rfl⟩

/-- C6 (witness): the claim at the sample log. -/
theorem C6_commitmentIndex_is_topic1_witness :
    isCommitmentStored sampleLog = true ∧ sampleLog.Topics.get? 1 = some sampleTopic ∧
    UnpackIntoInterface Event.zero sampleLog.Data = .ok sampleEvent ∧
    ∃ record, processLog UnpackIntoInterface sampleLog = .decoded record ∧
      record.CommitmentIndex = sampleTopic ∧
      record = { sampleEvent with CommitmentIndex := sampleTopic } :=
  ⟨isCommitmentStored_sampleLog, rfl, UnpackIntoInterface_samplePayload,
    (C6_commitmentIndex_is_topic1 UnpackIntoInterface sampleLog sampleEvent sampleTopic
      isCommitmentStored_sampleLog rfl UnpackIntoInterface_samplePayload).1⟩

/-- C7: for a matched log, either the payload decodes and the second topic is read, and
the complete record of 15 fields is printed, or no record at all is printed for the log. -/
theorem C7_record_is_complete_or_absent
    (unpack : Event → List Byte → Except String Event) (vLog : Log)
    (hmatch : isCommitmentStored vLog = true) :
    (∃ event topic1, unpack Event.zero vLog.Data = .ok event ∧
      vLog.Topics.get? 1 = some topic1 ∧
      processLog unpack vLog = .decoded { event with CommitmentIndex := topic1 } ∧
      mainLoop unpack [vLog] =
        ([.log vLog, .event { event with CommitmentIndex := topic1 }], .ok) ∧
      (Event.fields { event with CommitmentIndex := topic1 }).length = 15) ∨
    (((∃ err, unpack Event.zero vLog.Data = .error err) ∨ vLog.Topics.get? 1 = none) ∧
      (∀ record, processLog unpack vLog ≠ .decoded record) ∧
      (mainLoop unpack [vLog]).1 = [.log vLog] ∧
      records (mainLoop unpack [vLog]).1 = []) := by
  cases hdata : unpack Event.zero vLog.Data with
  | error err =>
    right
    have hp := processLog_fatal unpack vLog err hmatch hdata
    refine ⟨Or.inl ⟨err, rfl⟩, ?_, ?_, ?_⟩
    · intro record h
      rw [hp] at h
      exact Step.noConfusion h
    · rw [mainLoop_single, hp]
    · rw [mainLoop_single, hp]
      rfl
  | ok event =>
    cases htopic : vLog.Topics.get? 1 with
    | none =>
      right
      have hp := processLog_indexOutOfRange unpack vLog event hmatch htopic hdata
      refine ⟨Or.inr rfl, ?_, ?_, ?_⟩
      · intro record h
        rw [hp] at h
        exact Step.noConfusion h
      · rw [mainLoop_single, hp]
      · rw [mainLoop_single, hp]
        rfl
    | some topic1 =>
      left
      have hp := processLog_decoded unpack vLog event topic1 hmatch htopic hdata
      refine ⟨event, topic1, rfl, rfl, hp, ?_, rfl⟩
      rw [mainLoop_single, hp]

/-- C7 (witness): the claim at the sample log, which yields its complete record. -/
theorem C7_record_is_complete_or_absent_witness :
    isCommitmentStored sampleLog = true ∧
    ((∃ event topic1, UnpackIntoInterface Event.zero sampleLog.Data = .ok event ∧
      sampleLog.Topics.get? 1 = some topic1 ∧
      processLog UnpackIntoInterface sampleLog =
        .decoded { event with CommitmentIndex := topic1 } ∧
      mainLoop UnpackIntoInterface [sampleLog] =
        ([.log sampleLog, .event { event with CommitmentIndex := topic1 }], .ok) ∧
      (Event.fields { event with CommitmentIndex := topic1 }).length = 15) ∨
    (((∃ err, UnpackIntoInterface Event.zero sampleLog.Data = .error err) ∨
        sampleLog.Topics.get? 1 = none) ∧
      (∀ record, processLog UnpackIntoInterface sampleLog ≠ .decoded record) ∧
      (mainLoop UnpackIntoInterface [sampleLog]).1 = [.log sampleLog] ∧
      records (mainLoop UnpackIntoInterface [sampleLog]).1 = [])) :=
  ⟨isCommitmentStored_sampleLog,
    C7_record_is_complete_or_absent UnpackIntoInterface sampleLog isCommitmentStored_sampleLog⟩

/-- C8: for a matched log whose payload is shorter than the head region, one 32-byte word
for each of the 14 non-indexed fields, the decoder returns an error; the log yields a fatal
error and no record, and no index out of range. -/
theorem C8_short_payload_is_decode_error (vLog : Log)
    (hmatch : isCommitmentStored vLog = true)
    (hshort : vLog.Data.length < 32 * (nonIndexed commitmentStoredInputs).length) :
    (nonIndexed commitmentStoredInputs).length = 14 ∧
    ∃ err, (∀ event, UnpackIntoInterface event vLog.Data = .error err) ∧
      processLog UnpackIntoInterface vLog = .fatal ("Failed to unpack log data: " ++ err) ∧
      mainLoop UnpackIntoInterface [vLog] =
        ([.log vLog], .fatal ("Failed to unpack log data: " ++ err)) := by
  refine ⟨nonIndexed_commitmentStoredInputs_length, ?_⟩
  obtain ⟨err, herr⟩ := UnpackIntoInterface_short Event.zero vLog.Data hshort
  have hall : ∀ event, UnpackIntoInterface event vLog.Data = .error err := by
    intro event
    obtain ⟨err2, herr2⟩ := UnpackIntoInterface_short event vLog.Data hshort
    have h0 := herr
    unfold UnpackIntoInterface at h0 herr2 ⊢
    cases hu : Unpack commitmentStoredInputs vLog.Data with
    | error e =>
      rw [hu] at h0
      simp only [Except.error.injEq] at h0
      simp only [h0]
    | ok values =>
      exfalso
      have hok := hu
      unfold Unpack at hok
      split at hok
      · rw [if_pos (by rw [nonIndexed_commitmentStoredInputs_length]; decide)] at hok
        simp at hok
      · have := unpackValuesFrom_ok_length vLog.Data _ 0 values hok (by
          intro h0
          have := nonIndexed_commitmentStoredInputs_length
          rw [h0] at this
          simp at this)
        omega
  have hp := processLog_fatal UnpackIntoInterface vLog err hmatch herr
  refine ⟨err, hall, hp, ?_⟩
  rw [mainLoop_single, hp]

/-- C8 (witness): the claim at the log whose payload holds 13 of the 14 head words. -/
theorem C8_short_payload_is_decode_error_witness :
    isCommitmentStored truncatedLog = true ∧
    truncatedLog.Data.length < 32 * (nonIndexed commitmentStoredInputs).length ∧
    ∃ err, (∀ event, UnpackIntoInterface event truncatedLog.Data = .error err) ∧
      processLog UnpackIntoInterface truncatedLog =
        .fatal ("Failed to unpack log data: " ++ err) ∧
      mainLoop UnpackIntoInterface [truncatedLog] =
        ([.log truncatedLog], .fatal ("Failed to unpack log data: " ++ err)) :=
  ⟨isCommitmentStored_truncatedLog, truncatedLog_short,
    (C8_short_payload_is_decode_error truncatedLog isCommitmentStored_truncatedLog
      truncatedLog_short).2⟩

/-- C9: in two lists of logs in which every matched log is decoded, payload and indexed
topic, a log that is in both has the same record in both runs: the record it yields when
it is processed on its own. -/
theorem C9_record_depends_only_on_the_log
    (unpack : Event → List Byte → Except String Event) (logs1 logs2 : List Log) (vLog : Log)
    (h1 : ∀ l ∈ logs1, isCommitmentStored l = true → ∃ e, processLog unpack l = .decoded e)
    (h2 : ∀ l ∈ logs2, isCommitmentStored l = true → ∃ e, processLog unpack l = .decoded e)
    (hmem1 : vLog ∈ logs1) (hmem2 : vLog ∈ logs2)
    (hmatch : isCommitmentStored vLog = true) :
    ∃ record, processLog unpack vLog = .decoded record ∧
      (∃ event topic1, unpack Event.zero vLog.Data = .ok event ∧
        vLog.Topics.get? 1 = some topic1 ∧
        record = { event with CommitmentIndex := topic1 }) ∧
      (∀ e, (vLog, e) ∈ records (mainLoop unpack logs1).1 ↔ e = record) ∧
      (∀ e, (vLog, e) ∈ records (mainLoop unpack logs2).1 ↔ e = record) := by
  obtain ⟨record, hrec⟩ := h1 vLog hmem1 hmatch
  refine ⟨record, hrec, processLog_decoded_inv unpack vLog record hrec, ?_, ?_⟩
  · intro e
    rw [records_mainLoop unpack logs1 h1, mem_filterMap_recordOf unpack logs1 vLog e hmem1, hrec]
    constructor
    · intro h
      exact (Step.decoded.inj h).symm
    · intro h
      rw [h]
  · intro e
    rw [records_mainLoop unpack logs2 h2, mem_filterMap_recordOf unpack logs2 vLog e hmem2, hrec]
    constructor
    · intro h
      exact (Step.decoded.inj h).symm
    · intro h
      rw [h]

/-- C9 (witness): the sample log in two lists that hold it at different positions, after
and before other logs. -/
theorem C9_record_depends_only_on_the_log_witness :
    sampleLog ∈ [⟨contractAddress, [], []⟩, extraTopicLog, sampleLog] ∧
    sampleLog ∈ [sampleLog, extraTopicLog] ∧
    isCommitmentStored sampleLog = true ∧
    ∃ record, processLog UnpackIntoInterface sampleLog = .decoded record ∧
      (∃ event topic1, UnpackIntoInterface Event.zero sampleLog.Data = .ok event ∧
        sampleLog.Topics.get? 1 = some topic1 ∧
        record = { event with CommitmentIndex := topic1 }) ∧
      (∀ e, (sampleLog, e) ∈ records (mainLoop UnpackIntoInterface
        [⟨contractAddress, [], []⟩, extraTopicLog, sampleLog]).1 ↔ e = record) ∧
      (∀ e, (sampleLog, e) ∈ records (mainLoop UnpackIntoInterface
        [sampleLog, extraTopicLog]).1 ↔ e = record) :=
  ⟨by simp, by simp, isCommitmentStored_sampleLog,
    C9_record_depends_only_on_the_log UnpackIntoInterface
      [⟨contractAddress, [], []⟩, extraTopicLog, sampleLog] [sampleLog, extraTopicLog] sampleLog
      (by
        intro l hl hm
        simp only [List.mem_cons, List.mem_singleton, List.not_mem_nil, or_false] at hl
        rcases hl with h | h | h
        · rw [h] at hm
          exact Bool.noConfusion hm
        · exact ⟨sampleRecord, h ▸ processLog_extraTopicLog⟩
        · exact ⟨sampleRecord, h ▸ processLog_sampleLog⟩)
      (by
        intro l hl _
        simp only [List.mem_cons, List.mem_singleton, List.not_mem_nil, or_false] at hl
        rcases hl with h | h
        · exact ⟨sampleRecord, h ▸ processLog_sampleLog⟩
        · exact ⟨sampleRecord, h ▸ processLog_extraTopicLog⟩)
      (by simp) (by simp) isCommitmentStored_sampleLog⟩

/-- C10 (failing input): a log whose only topic is the signature hash passes the guard
and its payload decodes; the read of the second topic is then out of range and ends the
run after the log line. -/
theorem C10_signature_only_log_reads_out_of_range :
    isCommitmentStored signatureOnlyLog = true ∧
    UnpackIntoInterface Event.zero signatureOnlyLog.Data = .ok sampleEvent ∧
    signatureOnlyLog.Topics.length = 1 ∧
    processLog UnpackIntoInterface signatureOnlyLog = .indexOutOfRange ∧
    mainLoop UnpackIntoInterface [signatureOnlyLog, sampleLog] =
      ([.log signatureOnlyLog], .indexOutOfRange) := by
  refine ⟨isCommitmentStored_signatureOnlyLog, UnpackIntoInterface_samplePayload, rfl,
    processLog_signatureOnlyLog, ?_⟩
  simp only [mainLoop, processLog_signatureOnlyLog]

end GetEvents
